import Mathlib

/-!
Shallow embedding of the daily-amount decomposition engine of
`src/result-mapper.js` (superfluid-accounting-items).

Timestamps are integer seconds since the UTC epoch, modelled as `Int`.
The moment.js operations used by the source reduce, on integer-second
UTC instants, to plain integer arithmetic:
* `m.clone().add(1, 'days')` adds 86400 seconds;
* `m.startOf('day')` floors to the enclosing multiple of 86400 seconds
  (midnight UTC), which for an `Int` timestamp `t` is `t - t % 86400`
  (Lean's `%` on `Int` is `Int.emod`, whose result is nonnegative for a
  positive modulus, so this floors also for pre-epoch instants);
* `a.isAfter b` is `b < a`, `a.isSame b` is `a = b`,
  `a.diff(b, 'seconds')` is `a - b`.
Flow rates are modelled as `Int` (the spec's "signed integer", exact
arithmetic).
-/

namespace ResultMapper

/-- Output record of the engine (`createDailyAmount` in the source). -/
structure DailyAmount where
  startTime : Int
  endTime : Int
  quantityInToken : Int
deriving DecidableEq, Repr

/-- `moment.startOf('day')` on a UTC instant: floor to midnight UTC,
the greatest multiple of 86400 that is ≤ `t`. -/
def startOfDay (t : Int) : Int := t - t % 86400

/-- `getFlowedTokenQuantityBetween` : `endTime.diff(startTime, 'seconds') * flowRate`. -/
def getFlowedTokenQuantityBetween (startTime endTime flowRate : Int) : Int :=
  (endTime - startTime) * flowRate

/-- `createDailyAmount` from the source. -/
def createDailyAmount (startTime endTime quantityInToken : Int) : DailyAmount :=
  { startTime := startTime, endTime := endTime, quantityInToken := quantityInToken }

/-- `calculateFirstDailyAmount` from the source: if the stream period spans
days, the first amount stops at the start of the next day, otherwise at the
end of the stream period. -/
def calculateFirstDailyAmount (startMoment endMoment : Int) (spansDays : Bool)
    (flowRate : Int) : DailyAmount :=
  let firstEndTime := if spansDays then startOfDay (startMoment + 86400) else endMoment
  createDailyAmount startMoment firstEndTime
    (getFlowedTokenQuantityBetween startMoment firstEndTime flowRate)

/-- `calculateLastDailyAmount` from the source. -/
def calculateLastDailyAmount (lastStartTime endMoment flowRate : Int) : DailyAmount :=
  createDailyAmount lastStartTime endMoment
    (getFlowedTokenQuantityBetween lastStartTime endMoment flowRate)

/-- The `while` loop of `calculateDailyAmountsForFullDaysBetween`: while
`endMoment.isAfter(startOfNextFullDay) || endMoment.isSame(startOfNextFullDay)`
push the amount for the day ending at `startOfNextFullDay` and advance the
cursor by one day.  The loop terminates because the cursor strictly
increases at each iteration while `endMoment` is fixed. -/
def fullDaysLoop (endMoment flowRate : Int) (startOfNextFullDay : Int) :
    List DailyAmount :=
  if h : startOfNextFullDay ≤ endMoment then
    let startTime := startOfDay (startOfNextFullDay - 86400)
    let endTime := startOfNextFullDay
    createDailyAmount startTime endTime
        (getFlowedTokenQuantityBetween startTime endTime flowRate)
      :: fullDaysLoop endMoment flowRate (startOfDay (startOfNextFullDay + 86400))
  else []
termination_by (endMoment + 1 - startOfNextFullDay).toNat
decreasing_by
  simp only [startOfDay]
  omega

/-- Return value of `calculateDailyAmountsForFullDaysBetween`. -/
structure FullDaysResult where
  fullDayAmounts : List DailyAmount
  lastEndTime : Int
deriving DecidableEq, Repr

/-- `calculateDailyAmountsForFullDaysBetween` from the source: the loop is
started at `startMoment.clone().add(1, 'days').startOf('day')`; afterwards
`lastEndTime` is the `endTime` of the last emitted amount, or `startMoment`
when no full day was emitted. -/
def calculateDailyAmountsForFullDaysBetween (startMoment endMoment flowRate : Int) :
    FullDaysResult :=
  let fullDayAmounts := fullDaysLoop endMoment flowRate (startOfDay (startMoment + 86400))
  { fullDayAmounts := fullDayAmounts
    lastEndTime :=
      match fullDayAmounts.getLast? with
      | some a => a.endTime
      | none => startMoment }

/-- `calculateDailyAmounts` from the source: first partial day, then the
full days in between, then (unless the cursor already reached `endMoment`)
the last partial day. -/
def calculateDailyAmounts (startMoment endMoment flowRate : Int) : List DailyAmount :=
  let nextDayStart := startOfDay (startMoment + 86400)
  let spansDays : Bool := decide (nextDayStart < endMoment)
  let firstDailyAmount := calculateFirstDailyAmount startMoment endMoment spansDays flowRate
  if spansDays then
    let res := calculateDailyAmountsForFullDaysBetween firstDailyAmount.endTime endMoment flowRate
    if res.lastEndTime = endMoment then
      firstDailyAmount :: res.fullDayAmounts
    else
      firstDailyAmount :: res.fullDayAmounts
        ++ [calculateLastDailyAmount res.lastEndTime endMoment flowRate]
  else
    [firstDailyAmount]

/-- Input record of `getDailyAmounts` (the fields it reads).
`stoppedAtTimestamp` is `null` in JS for a still-active period, modelled
as `Option Int`. -/
structure StreamPeriod where
  startedAtTimestamp : Int
  stoppedAtTimestamp : Option Int
  flowRate : Int

/-- `!!streamPeriod.stoppedAtTimestamp` from the source: JS truthiness,
under which both `null` and `0` are falsy. -/
def isStreamTerminated (sp : StreamPeriod) : Bool :=
  match sp.stoppedAtTimestamp with
  | some t => decide (t ≠ 0)
  | none => false

/-- `Math.max(streamPeriod.startedAtTimestamp, startTimestamp)` from the source. -/
def dailyAmountStartTimestamp (sp : StreamPeriod) (startTimestamp : Int) : Int :=
  max sp.startedAtTimestamp startTimestamp

/-- `isStreamTerminated ? Math.min(endTimestamp, streamPeriod.stoppedAtTimestamp) : endTimestamp`
from the source. -/
def dailyAmountEndTimestamp (sp : StreamPeriod) (endTimestamp : Int) : Int :=
  if isStreamTerminated sp then min endTimestamp (sp.stoppedAtTimestamp.getD 0)
  else endTimestamp

/-- `getDailyAmounts` from the source: clip the period to the reporting
window, resolve termination, and run the engine. -/
def getDailyAmounts (sp : StreamPeriod) (startTimestamp endTimestamp : Int) :
    List DailyAmount :=
  calculateDailyAmounts (dailyAmountStartTimestamp sp startTimestamp)
    (dailyAmountEndTimestamp sp endTimestamp) sp.flowRate

/-! ### Arithmetic facts about `startOfDay` -/

theorem startOfDay_le (t : Int) : startOfDay t ≤ t := by
  simp only [startOfDay]; omega

theorem lt_startOfDay_add (t : Int) : t < startOfDay t + 86400 := by
  simp only [startOfDay]; omega

theorem startOfDay_emod (t : Int) : startOfDay t % 86400 = 0 := by
  simp only [startOfDay]; omega

theorem startOfDay_eq_self {t : Int} (h : t % 86400 = 0) : startOfDay t = t := by
  simp only [startOfDay]; omega

theorem startOfDay_add_day (t : Int) : startOfDay (t + 86400) = startOfDay t + 86400 := by
  simp only [startOfDay]; omega

theorem lt_startOfDay_add_day (t : Int) : t < startOfDay (t + 86400) := by
  simp only [startOfDay]; omega

/-! ### Contiguous chains of daily amounts

`AmountChain r s e l` says that `l` is a gap-free sequence of amounts
leading from instant `s` to instant `e`, each amount carrying exactly the
quantity flowed at rate `r` during its own sub-interval.  All the
spec-level sequence invariants are consequences of this single predicate. -/

inductive AmountChain (r : Int) : Int → Int → List DailyAmount → Prop where
  | nil (s : Int) : AmountChain r s s []
  | cons (s m e : Int) (l : List DailyAmount) (h : AmountChain r m e l) :
      AmountChain r s e ({ startTime := s, endTime := m, quantityInToken := (m - s) * r } :: l)

theorem AmountChain.sum {r s e : Int} {l : List DailyAmount}
    (h : AmountChain r s e l) :
    (l.map DailyAmount.quantityInToken).sum = (e - s) * r := by
  induction h with
  | nil s => simp
  | cons s m e l h ih =>
      simp only [List.map_cons, List.sum_cons, ih]
      ring

theorem AmountChain.head_startTime {r s e : Int} {a : DailyAmount} {l : List DailyAmount}
    (h : AmountChain r s e (a :: l)) : a.startTime = s := by
  cases h; rfl

theorem AmountChain.quantity_eq {r s e : Int} {l : List DailyAmount}
    (h : AmountChain r s e l) :
    ∀ a ∈ l, a.quantityInToken = (a.endTime - a.startTime) * r := by
  induction h with
  | nil s => simp
  | cons s m e l h ih =>
      intro a ha
      rcases List.mem_cons.mp ha with rfl | ha
      · rfl
      · exact ih a ha

theorem AmountChain.chain' {r s e : Int} {l : List DailyAmount}
    (h : AmountChain r s e l) :
    List.Chain' (fun a b => a.endTime = b.startTime) l := by
  induction h with
  | nil s => exact List.chain'_nil
  | cons s m e l h ih =>
      cases l with
      | nil => exact List.chain'_singleton _
      | cons b l' =>
          exact List.chain'_cons.mpr ⟨(h.head_startTime).symm, ih⟩

theorem AmountChain.getLast?_endTime {r s e : Int} {l : List DailyAmount}
    (h : AmountChain r s e l) (hne : l ≠ []) :
    l.getLast?.map DailyAmount.endTime = some e := by
  induction h with
  | nil s => exact absurd rfl hne
  | cons s m e l h ih =>
      cases l with
      | nil => cases h; rfl
      | cons b l' =>
          rw [List.getLast?_cons_cons]
          exact ih (by simp)

theorem AmountChain.head?_startTime {r s e : Int} {l : List DailyAmount}
    (h : AmountChain r s e l) (hne : l ≠ []) :
    l.head?.map DailyAmount.startTime = some s := by
  cases h with
  | nil s => exact absurd rfl hne
  | cons s m e l h => rfl

theorem AmountChain.append {r s m e : Int} {l₁ l₂ : List DailyAmount}
    (h₁ : AmountChain r s m l₁) (h₂ : AmountChain r m e l₂) :
    AmountChain r s e (l₁ ++ l₂) := by
  induction h₁ with
  | nil s => simpa using h₂
  | cons s m' e' l h ih => exact AmountChain.cons _ _ _ _ (ih h₂)

theorem AmountChain.single (r s e : Int) :
    AmountChain r s e [{ startTime := s, endTime := e, quantityInToken := (e - s) * r }] :=
  AmountChain.cons s e e [] (AmountChain.nil e)

/-! ### Unfolding equations and an induction scheme for the full-days loop -/

theorem fullDaysLoop_of_gt {endMoment flowRate b : Int} (h : endMoment < b) :
    fullDaysLoop endMoment flowRate b = [] := by
  rw [fullDaysLoop, dif_neg (by omega)]

theorem fullDaysLoop_of_le {endMoment flowRate b : Int} (h : b ≤ endMoment) :
    fullDaysLoop endMoment flowRate b =
      createDailyAmount (startOfDay (b - 86400)) b
          (getFlowedTokenQuantityBetween (startOfDay (b - 86400)) b flowRate)
        :: fullDaysLoop endMoment flowRate (startOfDay (b + 86400)) := by
  rw [fullDaysLoop, dif_pos h]

/-- The terminal instant of a contiguous sequence started at `s`: the
`endTime` of its last amount, or `s` itself for the empty sequence. -/
def chainEnd (s : Int) : List DailyAmount → Int
  | [] => s
  | a :: l => chainEnd a.endTime l

theorem chainEnd_eq_getLast (s : Int) (l : List DailyAmount) :
    chainEnd s l = (l.getLast?.map DailyAmount.endTime).getD s := by
  induction l generalizing s with
  | nil => rfl
  | cons a l ih =>
      cases l with
      | nil => rfl
      | cons b l' =>
          rw [List.getLast?_cons_cons]
          have hne : (b :: l').getLast?.isSome := by
            rw [List.getLast?_isSome]
            simp
          rcases Option.isSome_iff_exists.mp hne with ⟨x, hx⟩
          rw [show chainEnd s (a :: b :: l') = chainEnd a.endTime (b :: l') from rfl,
            ih a.endTime, hx]
          rfl

theorem lastEndTime_eq_chainEnd (startMoment endMoment flowRate : Int) :
    (calculateDailyAmountsForFullDaysBetween startMoment endMoment flowRate).lastEndTime
      = chainEnd startMoment
          (calculateDailyAmountsForFullDaysBetween startMoment endMoment flowRate).fullDayAmounts := by
  simp only [calculateDailyAmountsForFullDaysBetween, chainEnd_eq_getLast]
  cases (fullDaysLoop endMoment flowRate (startOfDay (startMoment + 86400))).getLast? <;> rfl

/-! ### Properties of the full-days loop, by induction on a fuel bound -/

theorem fullDaysLoop_mem_aux (endMoment flowRate : Int) :
    ∀ n b, (endMoment + 1 - b).toNat ≤ n → b % 86400 = 0 →
      ∀ a ∈ fullDaysLoop endMoment flowRate b,
        a.startTime % 86400 = 0 ∧ a.endTime = a.startTime + 86400 ∧
          a.quantityInToken = 86400 * flowRate ∧ a.endTime ≤ endMoment := by
  intro n
  induction n with
  | zero =>
      intro b hn hb a ha
      rw [fullDaysLoop_of_gt (by omega)] at ha
      simp at ha
  | succ n ih =>
      intro b hn hb a ha
      by_cases hle : b ≤ endMoment
      · rw [fullDaysLoop_of_le hle] at ha
        have hsod : startOfDay (b - 86400) = b - 86400 := startOfDay_eq_self (by omega)
        have hsod2 : startOfDay (b + 86400) = b + 86400 := startOfDay_eq_self (by omega)
        rw [hsod, hsod2] at ha
        rcases List.mem_cons.mp ha with rfl | ha
        · refine ⟨?_, ?_, ?_, ?_⟩
          · show (b - 86400) % 86400 = 0
            omega
          · show b = b - 86400 + 86400
            omega
          · show (b - (b - 86400)) * flowRate = 86400 * flowRate
            have h1 : b - (b - 86400) = 86400 := by omega
            rw [h1]
          · exact hle
        · exact ih (b + 86400) (by omega) (by omega) a ha
      · rw [fullDaysLoop_of_gt (by omega)] at ha
        simp at ha

theorem fullDaysLoop_mem {endMoment flowRate b : Int} (hb : b % 86400 = 0) :
    ∀ a ∈ fullDaysLoop endMoment flowRate b,
      a.startTime % 86400 = 0 ∧ a.endTime = a.startTime + 86400 ∧
        a.quantityInToken = 86400 * flowRate ∧ a.endTime ≤ endMoment :=
  fullDaysLoop_mem_aux endMoment flowRate (endMoment + 1 - b).toNat b le_rfl hb

theorem fullDaysLoop_chain_aux (endMoment flowRate : Int) :
    ∀ n b, (endMoment + 1 - b).toNat ≤ n → b % 86400 = 0 →
      AmountChain flowRate (b - 86400)
        (chainEnd (b - 86400) (fullDaysLoop endMoment flowRate b))
        (fullDaysLoop endMoment flowRate b) := by
  intro n
  induction n with
  | zero =>
      intro b hn hb
      rw [fullDaysLoop_of_gt (by omega)]
      exact AmountChain.nil _
  | succ n ih =>
      intro b hn hb
      by_cases hle : b ≤ endMoment
      · rw [fullDaysLoop_of_le hle]
        have hsod : startOfDay (b - 86400) = b - 86400 := startOfDay_eq_self (by omega)
        have hsod2 : startOfDay (b + 86400) = b + 86400 := startOfDay_eq_self (by omega)
        rw [hsod, hsod2]
        have hstep := ih (b + 86400) (by omega) (by omega)
        rw [add_sub_cancel_right] at hstep
        simp only [createDailyAmount, getFlowedTokenQuantityBetween, chainEnd]
        exact AmountChain.cons _ _ _ _ hstep
      · rw [fullDaysLoop_of_gt (by omega)]
        exact AmountChain.nil _

theorem fullDaysLoop_chain {endMoment flowRate b : Int} (hb : b % 86400 = 0) :
    AmountChain flowRate (b - 86400)
      (chainEnd (b - 86400) (fullDaysLoop endMoment flowRate b))
      (fullDaysLoop endMoment flowRate b) :=
  fullDaysLoop_chain_aux endMoment flowRate (endMoment + 1 - b).toNat b le_rfl hb

theorem fullDaysLoop_exists_endTime_aux (endMoment flowRate : Int)
    (he : endMoment % 86400 = 0) :
    ∀ n b, (endMoment + 1 - b).toNat ≤ n → b % 86400 = 0 → b ≤ endMoment →
      ∃ a ∈ fullDaysLoop endMoment flowRate b, a.endTime = endMoment := by
  intro n
  induction n with
  | zero => intro b hn hb hle; omega
  | succ n ih =>
      intro b hn hb hle
      rw [fullDaysLoop_of_le hle]
      by_cases hbe : b = endMoment
      · exact ⟨_, List.mem_cons_self _ _, hbe⟩
      · have hb' : b + 86400 ≤ endMoment := by omega
        have hsod2 : startOfDay (b + 86400) = b + 86400 := startOfDay_eq_self (by omega)
        rw [hsod2]
        obtain ⟨a, ha, hae⟩ := ih (b + 86400) (by omega) (by omega) hb'
        exact ⟨a, List.mem_cons_of_mem _ ha, hae⟩

theorem fullDaysLoop_length_aux (endMoment flowRate : Int) :
    ∀ n b, (endMoment + 1 - b).toNat ≤ n → b % 86400 = 0 →
      (fullDaysLoop endMoment flowRate b).length =
        if b ≤ endMoment then ((endMoment - b) / 86400).toNat + 1 else 0 := by
  intro n
  induction n with
  | zero =>
      intro b hn hb
      rw [fullDaysLoop_of_gt (by omega), if_neg (by omega)]
      rfl
  | succ n ih =>
      intro b hn hb
      by_cases hle : b ≤ endMoment
      · rw [fullDaysLoop_of_le hle, if_pos hle]
        have hsod2 : startOfDay (b + 86400) = b + 86400 := startOfDay_eq_self (by omega)
        rw [List.length_cons, hsod2, ih (b + 86400) (by omega) (by omega)]
        split_ifs <;> omega
      · rw [fullDaysLoop_of_gt (by omega), if_neg hle]
        rfl

theorem fullDaysLoop_length {endMoment flowRate b : Int} (hb : b % 86400 = 0) :
    (fullDaysLoop endMoment flowRate b).length =
      if b ≤ endMoment then ((endMoment - b) / 86400).toNat + 1 else 0 :=
  fullDaysLoop_length_aux endMoment flowRate (endMoment + 1 - b).toNat b le_rfl hb

theorem fullDaysLoop_map_aux (endMoment r r' : Int) :
    ∀ n b, (endMoment + 1 - b).toNat ≤ n →
      fullDaysLoop endMoment r b =
        (fullDaysLoop endMoment r' b).map
          (fun a => { startTime := a.startTime, endTime := a.endTime,
                      quantityInToken := (a.endTime - a.startTime) * r }) := by
  intro n
  induction n with
  | zero =>
      intro b hn
      rw [fullDaysLoop_of_gt (by omega), fullDaysLoop_of_gt (by omega)]
      rfl
  | succ n ih =>
      intro b hn
      by_cases hle : b ≤ endMoment
      · rw [fullDaysLoop_of_le hle, fullDaysLoop_of_le hle, List.map_cons]
        have hlt : b < startOfDay (b + 86400) := lt_startOfDay_add_day b
        rw [ih (startOfDay (b + 86400)) (by omega)]
        rfl
      · rw [fullDaysLoop_of_gt (by omega), fullDaysLoop_of_gt (by omega)]
        rfl

theorem fullDaysLoop_map (endMoment r r' b : Int) :
    fullDaysLoop endMoment r b =
      (fullDaysLoop endMoment r' b).map
        (fun a => { startTime := a.startTime, endTime := a.endTime,
                    quantityInToken := (a.endTime - a.startTime) * r }) :=
  fullDaysLoop_map_aux endMoment r r' (endMoment + 1 - b).toNat b le_rfl

/-! ### Normal forms and structural facts for `calculateDailyAmounts` -/

theorem chainEnd_mem (s : Int) (l : List DailyAmount) (h : l ≠ []) :
    ∃ a ∈ l, chainEnd s l = a.endTime := by
  induction l generalizing s with
  | nil => exact absurd rfl h
  | cons a l ih =>
      cases l with
      | nil => exact ⟨a, by simp, rfl⟩
      | cons b l' =>
          obtain ⟨x, hx, he⟩ := ih a.endTime (by simp)
          exact ⟨x, List.mem_cons_of_mem _ hx, he⟩

theorem fullDaysBetween_chain {startMoment endMoment flowRate : Int}
    (hmod : startMoment % 86400 = 0) :
    AmountChain flowRate startMoment
      (calculateDailyAmountsForFullDaysBetween startMoment endMoment flowRate).lastEndTime
      (calculateDailyAmountsForFullDaysBetween startMoment endMoment flowRate).fullDayAmounts := by
  rw [lastEndTime_eq_chainEnd]
  simp only [calculateDailyAmountsForFullDaysBetween]
  have hsod : startOfDay (startMoment + 86400) = startMoment + 86400 :=
    startOfDay_eq_self (by omega)
  rw [hsod]
  have h := @fullDaysLoop_chain endMoment flowRate (startMoment + 86400) (by omega)
  rw [add_sub_cancel_right] at h
  exact h

theorem fullDaysBetween_mem (startMoment endMoment flowRate : Int) :
    ∀ a ∈ (calculateDailyAmountsForFullDaysBetween startMoment endMoment flowRate).fullDayAmounts,
      a.startTime % 86400 = 0 ∧ a.endTime = a.startTime + 86400 ∧
        a.quantityInToken = 86400 * flowRate ∧ a.endTime ≤ endMoment := by
  simp only [calculateDailyAmountsForFullDaysBetween]
  exact fullDaysLoop_mem (startOfDay_emod _)

theorem lastEndTime_le {startMoment endMoment flowRate : Int} (hse : startMoment ≤ endMoment) :
    (calculateDailyAmountsForFullDaysBetween startMoment endMoment flowRate).lastEndTime
      ≤ endMoment := by
  rw [lastEndTime_eq_chainEnd]
  rcases List.eq_nil_or_concat
      (calculateDailyAmountsForFullDaysBetween startMoment endMoment flowRate).fullDayAmounts
    with hnil | ⟨l', a, hcat⟩
  · rw [hnil]; exact hse
  · have hne : (calculateDailyAmountsForFullDaysBetween startMoment endMoment
        flowRate).fullDayAmounts ≠ [] := by
      rw [hcat]; simp
    obtain ⟨x, hx, he⟩ := chainEnd_mem startMoment _ hne
    rw [he]
    exact (fullDaysBetween_mem startMoment endMoment flowRate x hx).2.2.2

theorem lastEndTime_emod {startMoment endMoment flowRate : Int}
    (hmod : startMoment % 86400 = 0) :
    (calculateDailyAmountsForFullDaysBetween startMoment endMoment flowRate).lastEndTime
      % 86400 = 0 := by
  rw [lastEndTime_eq_chainEnd]
  rcases List.eq_nil_or_concat
      (calculateDailyAmountsForFullDaysBetween startMoment endMoment flowRate).fullDayAmounts
    with hnil | ⟨l', a, hcat⟩
  · rw [hnil]; exact hmod
  · have hne : (calculateDailyAmountsForFullDaysBetween startMoment endMoment
        flowRate).fullDayAmounts ≠ [] := by
      rw [hcat]; simp
    obtain ⟨x, hx, he⟩ := chainEnd_mem startMoment _ hne
    rw [he]
    have hm := fullDaysBetween_mem startMoment endMoment flowRate x hx
    omega

theorem calculateDailyAmounts_of_not_spans {startMoment endMoment flowRate : Int}
    (h : endMoment ≤ startOfDay (startMoment + 86400)) :
    calculateDailyAmounts startMoment endMoment flowRate =
      [{ startTime := startMoment, endTime := endMoment,
         quantityInToken := (endMoment - startMoment) * flowRate }] := by
  have hd : decide (startOfDay (startMoment + 86400) < endMoment) = false :=
    decide_eq_false (by omega)
  simp [calculateDailyAmounts, hd, calculateFirstDailyAmount, createDailyAmount,
    getFlowedTokenQuantityBetween]

theorem calculateDailyAmounts_of_spans {startMoment endMoment flowRate : Int}
    (h : startOfDay (startMoment + 86400) < endMoment) :
    calculateDailyAmounts startMoment endMoment flowRate =
      ({ startTime := startMoment, endTime := startOfDay (startMoment + 86400),
         quantityInToken := (startOfDay (startMoment + 86400) - startMoment) * flowRate }
        :: (calculateDailyAmountsForFullDaysBetween (startOfDay (startMoment + 86400))
              endMoment flowRate).fullDayAmounts)
      ++ (if (calculateDailyAmountsForFullDaysBetween (startOfDay (startMoment + 86400))
                endMoment flowRate).lastEndTime = endMoment then []
          else [{ startTime := (calculateDailyAmountsForFullDaysBetween
                      (startOfDay (startMoment + 86400)) endMoment flowRate).lastEndTime,
                  endTime := endMoment,
                  quantityInToken := (endMoment - (calculateDailyAmountsForFullDaysBetween
                      (startOfDay (startMoment + 86400)) endMoment flowRate).lastEndTime)
                    * flowRate }]) := by
  have hd : decide (startOfDay (startMoment + 86400) < endMoment) = true :=
    decide_eq_true h
  simp only [calculateDailyAmounts, hd, if_true, calculateFirstDailyAmount, createDailyAmount,
    getFlowedTokenQuantityBetween, calculateLastDailyAmount]
  split_ifs with hLE
  · simp
  · simp

theorem calculateDailyAmounts_chain (startMoment endMoment flowRate : Int) :
    AmountChain flowRate startMoment endMoment
      (calculateDailyAmounts startMoment endMoment flowRate) := by
  by_cases hs : startOfDay (startMoment + 86400) < endMoment
  · rw [calculateDailyAmounts_of_spans hs]
    have hmod : startOfDay (startMoment + 86400) % 86400 = 0 := startOfDay_emod _
    have hchain := @fullDaysBetween_chain (startOfDay (startMoment + 86400))
      endMoment flowRate hmod
    split_ifs with hLE
    · rw [List.append_nil]
      rw [hLE] at hchain
      exact AmountChain.cons _ _ _ _ hchain
    · exact AmountChain.append (AmountChain.cons _ _ _ _ hchain) (AmountChain.single _ _ _)
  · rw [calculateDailyAmounts_of_not_spans (by omega)]
    exact AmountChain.single _ _ _

theorem calculateDailyAmounts_ne_nil (startMoment endMoment flowRate : Int) :
    calculateDailyAmounts startMoment endMoment flowRate ≠ [] := by
  by_cases hs : startOfDay (startMoment + 86400) < endMoment
  · rw [calculateDailyAmounts_of_spans hs]
    simp
  · rw [calculateDailyAmounts_of_not_spans (by omega)]
    simp

/-! ### Claim theorems -/

/-- Claim C2: for every `start ≤ end` and flow rate, the quantities of the
amounts produced by `calculateDailyAmounts` sum to `(end - start) * flowRate`
exactly. -/
theorem conservation_sum (startMoment endMoment flowRate : Int)
    (h : startMoment ≤ endMoment) :
    ((calculateDailyAmounts startMoment endMoment flowRate).map
        DailyAmount.quantityInToken).sum
      = (endMoment - startMoment) * flowRate :=
  (calculateDailyAmounts_chain startMoment endMoment flowRate).sum

theorem conservation_sum_witness :
    (1672574400 : Int) ≤ 1672725600 ∧
      ((calculateDailyAmounts 1672574400 1672725600 1).map
          DailyAmount.quantityInToken).sum = (1672725600 - 1672574400) * 1 :=
  ⟨by norm_num, conservation_sum 1672574400 1672725600 1 (by norm_num)⟩

/-- Claim C6: when `end` does not lie strictly after the start of the day
following `start` (a single-day interval), `calculateDailyAmounts` returns
exactly one amount `(start, end, (end - start) * flowRate)`; in particular a
zero-length interval yields one amount with equal endpoints and zero
quantity. -/
theorem single_day_identity (startMoment endMoment flowRate : Int) :
    (endMoment ≤ startOfDay (startMoment + 86400) →
      calculateDailyAmounts startMoment endMoment flowRate =
        [{ startTime := startMoment, endTime := endMoment,
           quantityInToken := (endMoment - startMoment) * flowRate }]) ∧
    calculateDailyAmounts startMoment startMoment flowRate =
      [{ startTime := startMoment, endTime := startMoment, quantityInToken := 0 }] := by
  constructor
  · exact fun h => calculateDailyAmounts_of_not_spans h
  · rw [calculateDailyAmounts_of_not_spans (le_of_lt (lt_startOfDay_add_day startMoment))]
    simp

theorem single_day_identity_witness :
    (200 : Int) ≤ startOfDay (100 + 86400) ∧
      calculateDailyAmounts 100 200 3 =
        [{ startTime := 100, endTime := 200, quantityInToken := (200 - 100) * 3 }] ∧
      calculateDailyAmounts 100 100 3 =
        [{ startTime := 100, endTime := 100, quantityInToken := 0 }] :=
  ⟨by decide, (single_day_identity 100 200 3).1 (by decide),
    (single_day_identity 100 100 3).2⟩

/-- Claim C7: for an inverted interval (`end < start`) the engine raises no
error and returns exactly one amount spanning `[start, end)` with quantity
`(end - start) * flowRate` (negative duration and, for a positive rate,
negative quantity). -/
theorem inverted_interval_single (startMoment endMoment flowRate : Int)
    (h : endMoment < startMoment) :
    calculateDailyAmounts startMoment endMoment flowRate =
      [{ startTime := startMoment, endTime := endMoment,
         quantityInToken := (endMoment - startMoment) * flowRate }] :=
  calculateDailyAmounts_of_not_spans
    (le_of_lt (lt_trans h (lt_startOfDay_add_day startMoment)))

theorem inverted_interval_single_witness :
    (300 : Int) < 500 ∧
      calculateDailyAmounts 500 300 2 =
        [{ startTime := 500, endTime := 300, quantityInToken := (300 - 500) * 2 }] :=
  ⟨by norm_num, inverted_interval_single 500 300 2 (by norm_num)⟩

/-- Claim C10: a stream period whose `stoppedAtTimestamp` equals `0` (falsy
in JS, unlike other non-null values) is treated by `getDailyAmounts` as
unterminated: the effective end is the window's `endTimestamp` rather than
`min endTimestamp 0`, exactly as for `stoppedAtTimestamp = null`. -/
theorem stopped_at_zero_unterminated (startedAt flowRate ws we : Int) :
    getDailyAmounts ⟨startedAt, some 0, flowRate⟩ ws we
        = getDailyAmounts ⟨startedAt, none, flowRate⟩ ws we ∧
      getDailyAmounts ⟨startedAt, some 0, flowRate⟩ ws we
        = calculateDailyAmounts (max startedAt ws) we flowRate := by
  constructor <;> rfl

/-- Claim C1, counterexample: a still-active stream period whose
`startedAtTimestamp` (1000000) exceeds the window end (500000) — an empty
effective interval — does NOT produce an empty list of daily amounts. -/
theorem empty_interval_not_empty_list :
    getDailyAmounts ⟨1000000, none, 1⟩ 0 500000 ≠ [] := by
  have h : getDailyAmounts ⟨1000000, none, 1⟩ 0 500000
      = calculateDailyAmounts 1000000 500000 1 := rfl
  rw [h, calculateDailyAmounts_of_not_spans (by decide)]
  simp

/-- Claim C1, amended: for every stream period whose window end lies
strictly before the period's effective start, `getDailyAmounts` produces
exactly one degenerate amount spanning the (inverted) effective interval,
with quantity `(effectiveEnd - effectiveStart) * flowRate`, instead of an
empty sequence. -/
theorem empty_interval_single_amount (sp : StreamPeriod) (ws we : Int)
    (h : we < dailyAmountStartTimestamp sp ws) :
    getDailyAmounts sp ws we =
      [{ startTime := dailyAmountStartTimestamp sp ws,
         endTime := dailyAmountEndTimestamp sp we,
         quantityInToken := (dailyAmountEndTimestamp sp we - dailyAmountStartTimestamp sp ws)
           * sp.flowRate }] := by
  have hle : dailyAmountEndTimestamp sp we ≤ we := by
    simp only [dailyAmountEndTimestamp]
    split_ifs
    · exact min_le_left _ _
    · exact le_refl we
  show calculateDailyAmounts (dailyAmountStartTimestamp sp ws)
      (dailyAmountEndTimestamp sp we) sp.flowRate = _
  exact calculateDailyAmounts_of_not_spans
    (le_of_lt (lt_trans (lt_of_le_of_lt hle h) (lt_startOfDay_add_day _)))

theorem empty_interval_single_amount_witness :
    (500000 : Int) < dailyAmountStartTimestamp ⟨1000000, none, 1⟩ 0 ∧
      getDailyAmounts ⟨1000000, none, 1⟩ 0 500000 =
        [{ startTime := dailyAmountStartTimestamp ⟨1000000, none, 1⟩ 0,
           endTime := dailyAmountEndTimestamp ⟨1000000, none, 1⟩ 500000,
           quantityInToken := (dailyAmountEndTimestamp ⟨1000000, none, 1⟩ 500000
             - dailyAmountStartTimestamp ⟨1000000, none, 1⟩ 0) * (1 : Int) }] :=
  ⟨by decide, empty_interval_single_amount ⟨1000000, none, 1⟩ 0 500000 (by decide)⟩

/-- Claim C3: for every `start ≤ end`, the produced sequence is contiguous
(each amount's `endTime` is the next amount's `startTime`), ordered by time
(every amount's `startTime ≤ endTime`), its first element starts at `start`
and its last element ends at `end`. -/
theorem contiguity_boundary_coverage (startMoment endMoment flowRate : Int)
    (h : startMoment ≤ endMoment) :
    List.Chain' (fun a b => a.endTime = b.startTime)
        (calculateDailyAmounts startMoment endMoment flowRate) ∧
      (∀ a ∈ calculateDailyAmounts startMoment endMoment flowRate,
        a.startTime ≤ a.endTime) ∧
      ((calculateDailyAmounts startMoment endMoment flowRate).head?.map
          DailyAmount.startTime = some startMoment) ∧
      ((calculateDailyAmounts startMoment endMoment flowRate).getLast?.map
          DailyAmount.endTime = some endMoment) := by
  have hchain := calculateDailyAmounts_chain startMoment endMoment flowRate
  have hne := calculateDailyAmounts_ne_nil startMoment endMoment flowRate
  refine ⟨hchain.chain', ?_, hchain.head?_startTime hne, hchain.getLast?_endTime hne⟩
  by_cases hs : startOfDay (startMoment + 86400) < endMoment
  · rw [calculateDailyAmounts_of_spans hs]
    intro a ha
    rcases List.mem_append.mp ha with ha | ha
    · rcases List.mem_cons.mp ha with rfl | ha
      · exact le_of_lt (lt_startOfDay_add_day startMoment)
      · have hm := fullDaysBetween_mem _ _ _ a ha
        omega
    · revert ha
      split_ifs with hLE
      · intro ha
        simp at ha
      · intro ha
        rcases List.mem_singleton.mp ha with rfl
        exact @lastEndTime_le (startOfDay (startMoment + 86400)) endMoment flowRate
          (le_of_lt hs)
  · rw [calculateDailyAmounts_of_not_spans (by omega)]
    intro a ha
    rcases List.mem_singleton.mp ha with rfl
    exact h

theorem contiguity_boundary_coverage_witness :
    (1672574400 : Int) ≤ 1672725600 ∧
      (List.Chain' (fun a b => a.endTime = b.startTime)
          (calculateDailyAmounts 1672574400 1672725600 1) ∧
        (∀ a ∈ calculateDailyAmounts 1672574400 1672725600 1,
          a.startTime ≤ a.endTime) ∧
        ((calculateDailyAmounts 1672574400 1672725600 1).head?.map
            DailyAmount.startTime = some 1672574400) ∧
        ((calculateDailyAmounts 1672574400 1672725600 1).getLast?.map
            DailyAmount.endTime = some 1672725600)) :=
  ⟨by norm_num, contiguity_boundary_coverage 1672574400 1672725600 1 (by norm_num)⟩

/-- Claim C4: for every `start ≤ end`, every produced amount except the
last has an `endTime` that is a multiple of 86400 seconds, i.e. 00:00:00
UTC of some day. -/
theorem day_alignment_dropLast (startMoment endMoment flowRate : Int)
    (h : startMoment ≤ endMoment) :
    ∀ a ∈ (calculateDailyAmounts startMoment endMoment flowRate).dropLast,
      a.endTime % 86400 = 0 := by
  by_cases hs : startOfDay (startMoment + 86400) < endMoment
  · rw [calculateDailyAmounts_of_spans hs]
    split_ifs with hLE
    · rw [List.append_nil]
      intro a ha
      have ha' := List.dropLast_subset _ ha
      rcases List.mem_cons.mp ha' with rfl | ha''
      · exact startOfDay_emod _
      · have hm := fullDaysBetween_mem _ _ _ a ha''
        omega
    · rw [List.dropLast_concat]
      intro a ha
      rcases List.mem_cons.mp ha with rfl | ha'
      · exact startOfDay_emod _
      · have hm := fullDaysBetween_mem _ _ _ a ha'
        omega
  · rw [calculateDailyAmounts_of_not_spans (by omega)]
    intro a ha
    simp at ha

theorem day_alignment_dropLast_witness :
    (1672574400 : Int) ≤ 1672725600 ∧
      ∀ a ∈ (calculateDailyAmounts 1672574400 1672725600 1).dropLast,
        a.endTime % 86400 = 0 :=
  ⟨by norm_num, day_alignment_dropLast 1672574400 1672725600 1 (by norm_num)⟩

/-- Claim C5: whenever `end` is strictly after the day boundary following
`start`, every full-day amount emitted by
`calculateDailyAmountsForFullDaysBetween` spans exactly one UTC calendar
day (`startTime` is midnight UTC and `endTime = startTime + 86400`) with
quantity `86400 * flowRate` and does not overrun `end`; and since the loop
condition is inclusive, a day ending exactly at `end` is still emitted. -/
theorem full_day_phase (startMoment endMoment flowRate : Int)
    (h : startOfDay (startMoment + 86400) < endMoment) :
    (∀ a ∈ (calculateDailyAmountsForFullDaysBetween startMoment endMoment
        flowRate).fullDayAmounts,
      a.startTime % 86400 = 0 ∧ a.endTime = a.startTime + 86400 ∧
        a.quantityInToken = 86400 * flowRate ∧ a.endTime ≤ endMoment) ∧
    (endMoment % 86400 = 0 →
      ∃ a ∈ (calculateDailyAmountsForFullDaysBetween startMoment endMoment
          flowRate).fullDayAmounts, a.endTime = endMoment) := by
  constructor
  · exact fullDaysBetween_mem _ _ _
  · intro he
    simp only [calculateDailyAmountsForFullDaysBetween]
    exact fullDaysLoop_exists_endTime_aux endMoment flowRate he
      (endMoment + 1 - startOfDay (startMoment + 86400)).toNat
      (startOfDay (startMoment + 86400)) le_rfl (startOfDay_emod _) (le_of_lt h)

theorem full_day_phase_witness :
    startOfDay ((43200 : Int) + 86400) < 259200 ∧
      (∀ a ∈ (calculateDailyAmountsForFullDaysBetween 43200 259200
          7).fullDayAmounts,
        a.startTime % 86400 = 0 ∧ a.endTime = a.startTime + 86400 ∧
          a.quantityInToken = 86400 * 7 ∧ a.endTime ≤ 259200) ∧
      (∃ a ∈ (calculateDailyAmountsForFullDaysBetween 43200 259200
          7).fullDayAmounts, a.endTime = 259200) :=
  ⟨by decide, (full_day_phase 43200 259200 7 (by decide)).1,
    (full_day_phase 43200 259200 7 (by decide)).2 (by decide)⟩

theorem chainEnd_map_preserve (s : Int) (l : List DailyAmount)
    (f : DailyAmount → DailyAmount) (hf : ∀ a, (f a).endTime = a.endTime) :
    chainEnd s (l.map f) = chainEnd s l := by
  induction l generalizing s with
  | nil => rfl
  | cons a l ih =>
      simp only [List.map_cons, chainEnd, hf]
      exact ih _

theorem calculateDailyAmounts_times_eq (startMoment endMoment r r' : Int) :
    (calculateDailyAmounts startMoment endMoment r).map (fun a => (a.startTime, a.endTime))
      = (calculateDailyAmounts startMoment endMoment r').map
          (fun a => (a.startTime, a.endTime)) := by
  by_cases hs : startOfDay (startMoment + 86400) < endMoment
  · rw [calculateDailyAmounts_of_spans hs, calculateDailyAmounts_of_spans hs]
    have hFL : (calculateDailyAmountsForFullDaysBetween (startOfDay (startMoment + 86400))
          endMoment r).fullDayAmounts
        = ((calculateDailyAmountsForFullDaysBetween (startOfDay (startMoment + 86400))
            endMoment r').fullDayAmounts).map
          (fun a => { startTime := a.startTime, endTime := a.endTime,
                      quantityInToken := (a.endTime - a.startTime) * r }) := by
      simp only [calculateDailyAmountsForFullDaysBetween]
      exact fullDaysLoop_map endMoment r r' _
    have hLE : (calculateDailyAmountsForFullDaysBetween (startOfDay (startMoment + 86400))
          endMoment r).lastEndTime
        = (calculateDailyAmountsForFullDaysBetween (startOfDay (startMoment + 86400))
            endMoment r').lastEndTime := by
      rw [lastEndTime_eq_chainEnd, lastEndTime_eq_chainEnd, hFL]
      exact chainEnd_map_preserve _ _ _ (fun a => rfl)
    rw [hFL, hLE]
    split_ifs with hcond
    · simp [List.map_map, Function.comp]
    · simp [List.map_map, Function.comp]
  · rw [calculateDailyAmounts_of_not_spans (by omega),
      calculateDailyAmounts_of_not_spans (by omega)]
    simp

/-- Claim C8: the decomposition's shape does not depend on the flow rate —
for any two rates the produced sequences have identical `(startTime,
endTime)` pairs position by position (hence the same length) — and with
flow rate 0 every produced amount has zero quantity. -/
theorem shape_flowRate_independent (startMoment endMoment r1 r2 : Int) :
    (calculateDailyAmounts startMoment endMoment r1).map
        (fun a => (a.startTime, a.endTime))
      = (calculateDailyAmounts startMoment endMoment r2).map
          (fun a => (a.startTime, a.endTime)) ∧
    ∀ a ∈ calculateDailyAmounts startMoment endMoment 0, a.quantityInToken = 0 := by
  constructor
  · exact calculateDailyAmounts_times_eq startMoment endMoment r1 r2
  · intro a ha
    have hq := (calculateDailyAmounts_chain startMoment endMoment 0).quantity_eq a ha
    simpa using hq

/-- Claim C9: the decomposition is a total computation whose output size —
and hence the number of iterations of the full-days loop, which emits one
amount per iteration — is bounded by the number of UTC days spanned by the
interval (the loop cursor strictly increases by one day per iteration while
`end` stays fixed). -/
theorem termination_length_bound (startMoment endMoment flowRate : Int) :
    (calculateDailyAmountsForFullDaysBetween startMoment endMoment
          flowRate).fullDayAmounts.length
        ≤ ((endMoment - startMoment) / 86400 + 1).toNat ∧
      (calculateDailyAmounts startMoment endMoment flowRate).length
        ≤ ((endMoment - startMoment) / 86400).toNat + 2 := by
  constructor
  · simp only [calculateDailyAmountsForFullDaysBetween]
    rw [fullDaysLoop_length (startOfDay_emod _)]
    have h2 : startOfDay (startMoment + 86400)
        = startMoment + 86400 - (startMoment + 86400) % 86400 := rfl
    split_ifs <;> omega
  · by_cases hs : startOfDay (startMoment + 86400) < endMoment
    · rw [calculateDailyAmounts_of_spans hs]
      have hmod : startOfDay (startMoment + 86400) % 86400 = 0 := startOfDay_emod _
      have hsod2 : startOfDay (startOfDay (startMoment + 86400) + 86400)
          = startOfDay (startMoment + 86400) + 86400 := startOfDay_eq_self (by omega)
      have hFLlen : (calculateDailyAmountsForFullDaysBetween
            (startOfDay (startMoment + 86400)) endMoment flowRate).fullDayAmounts.length
          = if startOfDay (startMoment + 86400) + 86400 ≤ endMoment then
              ((endMoment - (startOfDay (startMoment + 86400) + 86400)) / 86400).toNat + 1
            else 0 := by
        simp only [calculateDailyAmountsForFullDaysBetween]
        rw [fullDaysLoop_length (startOfDay_emod _), hsod2]
      have h2 : startOfDay (startMoment + 86400)
          = startMoment + 86400 - (startMoment + 86400) % 86400 := rfl
      rw [List.length_append, List.length_cons, hFLlen]
      have htail : ∀ c : Prop, ∀ inst : Decidable c, ∀ x : DailyAmount,
          (if c then ([] : List DailyAmount) else [x]).length ≤ 1 := by
        intro c inst x
        split_ifs <;> simp
      refine le_trans (add_le_add le_rfl (htail _ _ _)) ?_
      split_ifs <;> omega
    · rw [calculateDailyAmounts_of_not_spans (by omega)]
      simp

end ResultMapper
